import Mathlib

/-!
Shallow embedding of the Trickster structured logging core
(`pkg/util/log/log.go`) and verification of its specification.

The Go source is modelled as follows:

* `LVal` models the `interface{}` values stored in a `Pairs` map
  (strings and integers suffice for every property considered here).
* A (non-nil) Go `map[string]interface{}` is modelled as an association
  list with distinct keys; `Detail` is `Option` of that, with `none`
  standing for a nil Go map.  Reading from (`mapLookup`), deleting from
  (`mapErase`) and ranging over a nil map are no-ops in Go, while an
  assignment `m[k] = v` to a nil map panics — the emission functions
  below report that panic through `EmitResult.panicked`.
* The go-kit `level` filter wrapping the base writer is modelled by
  `Allow`; a record carries an optional go-kit level value (`tag`).
  Per go-kit's default configuration (no `SquelchNoLevelRecords`),
  a record with no level value passes every filter, which is why
  `Trace` and `Fatal` (which attach only a plain string `"level"`
  pair, not a go-kit level value) always reach the sink.
* Writers are modelled by their observable destination `Sink`; both
  `os.Stdout` (an `*os.File`) and `*lumberjack.Logger` implement
  `io.Closer`, which `Sink.isCloser` records.
-/

namespace TrLog

/-- A logged value (`interface{}` in the Go source). -/
inductive LVal where
  | str : String → LVal
  | int : Int → LVal
deriving DecidableEq, Repr

/-- A non-nil Go `map[string]interface{}`, as an association list.
Go guarantees key uniqueness; theorems that depend on it take a
`mapWF` hypothesis. -/
abbrev PairsMap := List (String × LVal)

/-- `detail Pairs` argument of the Go API: `none` models a nil map. -/
abbrev Detail := Option PairsMap

/-- Keys of a map, in iteration order. -/
def mapKeys (d : PairsMap) : List String := d.map Prod.fst

/-- Well-formedness of the association-list model: distinct keys,
which every real Go map satisfies. -/
def mapWF (d : PairsMap) : Prop := (mapKeys d).Nodup

instance (d : PairsMap) : Decidable (mapWF d) := by
  unfold mapWF; infer_instance

/-- Go map read `v, ok := m[k]`. -/
def mapLookup (d : PairsMap) (key : String) : Option LVal :=
  match d with
  | [] => none
  | (k, v) :: rest => if k = key then some v else mapLookup rest key

/-- Go `delete(m, k)`: removes the entry for `k` (unique in a real map). -/
def mapErase (d : PairsMap) (key : String) : PairsMap :=
  match d with
  | [] => []
  | (k, v) :: rest => if k = key then rest else (k, v) :: mapErase rest key

/-- Go map assignment `m[k] = v`: overwrites in place or appends. -/
def mapInsert (d : PairsMap) (key : String) (v : LVal) : PairsMap :=
  match d with
  | [] => [(key, v)]
  | (k, w) :: rest =>
    if k = key then (key, v) :: rest else (k, w) :: mapInsert rest key v

/-- Flatten a map into the alternating key/value shape used by the
`[]interface{}` output array. -/
def mapFlat (d : PairsMap) : List LVal :=
  match d with
  | [] => []
  | (k, v) :: rest => LVal.str k :: v :: mapFlat rest

/-- `mapToArray` from `log.go`: builds the `[]interface{}` of length
`2*len(detail)+2`, placing any `"level"` pair first (and deleting it
from `detail`), then the `"event"` pair, then the remaining entries in
iteration order.  Returns the array together with the post-state of the
caller's (mutated-in-place) detail map. -/
def mapToArray (event : String) (detail : Detail) : List LVal × Detail :=
  match detail with
  | none => ([LVal.str "event", LVal.str event], none)
  | some d =>
    match mapLookup d "level" with
    | some lv =>
      let d2 := mapErase d "level"
      (LVal.str "level" :: lv :: LVal.str "event" :: LVal.str event :: mapFlat d2,
       some d2)
    | none =>
      (LVal.str "event" :: LVal.str event :: mapFlat d, some d)

/-- go-kit level values attached by `level.Info` etc. -/
inductive GKLevel where
  | debug | info | warn | error
deriving DecidableEq, Repr

/-- The go-kit filter installed by `level.NewFilter(base, level.AllowX())`. -/
inductive Allow where
  | allowDebug | allowInfo | allowWarn | allowError | allowNone
deriving DecidableEq, Repr

/-- Which go-kit level values a filter lets through. -/
def Allow.passes : Allow → GKLevel → Bool
  | .allowDebug, _ => true
  | .allowInfo, .debug => false
  | .allowInfo, _ => true
  | .allowWarn, .warn => true
  | .allowWarn, .error => true
  | .allowWarn, _ => false
  | .allowError, .error => true
  | .allowError, _ => false
  | .allowNone, _ => false

/-- A record pushed at the filtered logger: the optional go-kit level
value prepended by `level.Info`/&c. (absent for `Trace`/`Fatal`), and
the flattened key/value fields from `mapToArray`. -/
structure Record where
  tag : Option GKLevel
  fields : List LVal
deriving DecidableEq, Repr

/-- go-kit filter semantics with the default options: a record carrying
a level value passes iff allowed; a record with no level value always
passes (`SquelchNoLevelRecords` is not set by `log.go`). -/
def filterLog (a : Allow) (r : Record) : Option Record :=
  match r.tag with
  | none => some r
  | some g => if a.passes g then some r else none

/-- Destination writers, by their observable identity.  `stdout` is
`os.Stdout`; `rotatingFile` is the `lumberjack.Logger` with its fixed
policy fields. -/
inductive Sink where
  | stdout
  | rotatingFile (filename : String) (maxSize maxBackups maxAge : Nat)
      (compress : Bool)
deriving DecidableEq, Repr

/-- Whether the writer satisfies the `wr.(io.Closer)` type assertion in
`New`: `os.Stdout` is an `*os.File` (which has `Close() error`), and
`*lumberjack.Logger` also implements `io.Closer`, so both succeed. -/
def Sink.isCloser : Sink → Bool
  | .stdout => true
  | .rotatingFile _ _ _ _ _ => true

/-- The `Logger` struct.  `baseSink` is the destination of the base
(unfiltered) writer; `filter` is the go-kit filter of the releveled
`logger` field; `level`, `onceRanEntries` and `closer` match the Go
fields directly. -/
structure Logger where
  baseSink : Sink
  level : String
  filter : Allow
  onceRanEntries : List String
  closer : Option Sink
deriving DecidableEq, Repr

/-- ASCII fragment of Go's `unicode.ToLower`, identical to Lean core's
`Char.toLower` (the level strings involved are all ASCII). -/
def toLowerStr (s : String) : String := ⟨s.data.map Char.toLower⟩

/-- The `switch tl.level` statement of `SetLogLevel`, mapping the
lowercased level string to the go-kit filter it installs. -/
def levelFilter (lv : String) : Allow :=
  if lv = "debug" then .allowDebug
  else if lv = "info" then .allowInfo
  else if lv = "warn" then .allowWarn
  else if lv = "error" then .allowError
  else if lv = "trace" then .allowDebug
  else if lv = "none" then .allowNone
  else .allowInfo

/-- `SetLogLevel`: stores the lowercased string in `tl.level`, then
rebuilds the filtered logger from the base writer. -/
def Logger.SetLogLevel (tl : Logger) (logLevel : String) : Logger :=
  let lv := toLowerStr logLevel
  { tl with level := lv, filter := levelFilter lv }

/-- `noopLogger` wired up to a destination (the Go function leaves the
writers nil; every constructor immediately installs them and calls
`SetLogLevel`, so the placeholder `filter` below is always
overwritten before use). -/
def noopLogger (s : Sink) : Logger :=
  { baseSink := s, level := "", filter := .allowInfo,
    onceRanEntries := [], closer := none }

/-- `ConsoleLogger`: stdout writer, no closer, then `SetLogLevel`. -/
def ConsoleLogger (logLevel : String) : Logger :=
  (noopLogger .stdout).SetLogLevel logLevel

/-- `DefaultLogger`. -/
def DefaultLogger : Logger := ConsoleLogger "info"

/-- `strconv.Itoa`. -/
def itoa (i : Int) : String := toString i

/-- `strings.Replace(s, old, new, 1)` on the underlying characters:
splice `new` in place of the first occurrence of `old`. -/
def replaceFirstList (s old new : List Char) : List Char :=
  match s with
  | [] => []
  | c :: rest =>
    if old.isPrefixOf (c :: rest) then new ++ (c :: rest).drop old.length
    else c :: replaceFirstList rest old new

/-- `strings.Replace(s, old, new, 1)`. -/
def replaceFirst (s old new : String) : String :=
  ⟨replaceFirstList s.data old.data new.data⟩

/-- The `Logging`/`Main` configuration data consumed by `New`. -/
structure LoggingConfig where
  logFile : String
  logLevel : String
deriving DecidableEq, Repr

structure MainConfig where
  instanceID : Int
deriving DecidableEq, Repr

structure Config where
  logging : LoggingConfig
  main : MainConfig
deriving DecidableEq, Repr

/-- `New`: empty path selects stdout, otherwise a lumberjack rotating
writer (256 MB, 80 backups, 7 days, compressed) on the path with the
first `".log"` replaced by `".<instanceID>.log"` when the instance ID
is positive; then `SetLogLevel`; finally the `wr.(io.Closer)` type
assertion retains the writer as `closer` when it succeeds. -/
def New (conf : Config) : Logger :=
  let wr : Sink :=
    if conf.logging.logFile = "" then .stdout
    else
      let logFile :=
        if conf.main.instanceID > 0 then
          replaceFirst conf.logging.logFile ".log"
            ("." ++ itoa conf.main.instanceID ++ ".log")
        else conf.logging.logFile
      .rotatingFile logFile 256 80 7 true
  let l := (noopLogger wr).SetLogLevel conf.logging.logLevel
  if wr.isCloser then { l with closer := some wr } else l

/-- Observable outcome of one emission call: whether the call panicked
(nil-map assignment), the record that reached the sink (if any), and
the post-state of the caller's detail map. -/
structure EmitResult where
  panicked : Bool
  emitted : Option Record
  detail : Detail
deriving DecidableEq, Repr

/-- `Info`: `level.Info(tl.logger).Log(mapToArray(event, detail)...)`. -/
def Logger.Info (tl : Logger) (event : String) (detail : Detail) : EmitResult :=
  let r := mapToArray event detail
  ⟨false, filterLog tl.filter ⟨some .info, r.1⟩, r.2⟩

/-- `Warn`. -/
def Logger.Warn (tl : Logger) (event : String) (detail : Detail) : EmitResult :=
  let r := mapToArray event detail
  ⟨false, filterLog tl.filter ⟨some .warn, r.1⟩, r.2⟩

/-- `Error`. -/
def Logger.Error (tl : Logger) (event : String) (detail : Detail) : EmitResult :=
  let r := mapToArray event detail
  ⟨false, filterLog tl.filter ⟨some .error, r.1⟩, r.2⟩

/-- `Debug`. -/
def Logger.Debug (tl : Logger) (event : String) (detail : Detail) : EmitResult :=
  let r := mapToArray event detail
  ⟨false, filterLog tl.filter ⟨some .debug, r.1⟩, r.2⟩

/-- `Trace`: only when the stored level string is exactly `"trace"`,
assign `detail["level"] = "trace"` (a panic on a nil map) and log the
array directly through the filtered logger, with no go-kit level value
attached. -/
def Logger.Trace (tl : Logger) (event : String) (detail : Detail) : EmitResult :=
  if tl.level = "trace" then
    match detail with
    | none => ⟨true, none, none⟩
    | some d =>
      let r := mapToArray event (some (mapInsert d "level" (.str "trace")))
      ⟨false, filterLog tl.filter ⟨none, r.1⟩, r.2⟩
  else ⟨false, none, detail⟩

/-- `Fatal`: assign `detail["level"] = "fatal"` (a panic on a nil map),
log directly through the filtered logger with no go-kit level value,
then `os.Exit(code)` when `code >= 0`.  The second component records
whether the process terminates. -/
def Logger.Fatal (tl : Logger) (code : Int) (event : String)
    (detail : Detail) : EmitResult × Bool :=
  match detail with
  | none => (⟨true, none, none⟩, false)
  | some d =>
    let r := mapToArray event (some (mapInsert d "level" (.str "fatal")))
    (⟨false, filterLog tl.filter ⟨none, r.1⟩, r.2⟩, decide (0 ≤ code))

/-- `InfoOnce`: under the once mutex, namespace the key with `"info."`;
if unseen, record it and perform the normal `Info` emission returning
`true`, else return `false` with no emission. -/
def Logger.InfoOnce (tl : Logger) (key event : String) (detail : Detail) :
    Logger × Bool × EmitResult :=
  let k := "info." ++ key
  if k ∈ tl.onceRanEntries then (tl, false, ⟨false, none, detail⟩)
  else
    let tl2 := { tl with onceRanEntries := k :: tl.onceRanEntries }
    (tl2, true, tl2.Info event detail)

/-- `WarnOnce`. -/
def Logger.WarnOnce (tl : Logger) (key event : String) (detail : Detail) :
    Logger × Bool × EmitResult :=
  let k := "warn." ++ key
  if k ∈ tl.onceRanEntries then (tl, false, ⟨false, none, detail⟩)
  else
    let tl2 := { tl with onceRanEntries := k :: tl.onceRanEntries }
    (tl2, true, tl2.Warn event detail)

/-- `ErrorOnce`. -/
def Logger.ErrorOnce (tl : Logger) (key event : String) (detail : Detail) :
    Logger × Bool × EmitResult :=
  let k := "error." ++ key
  if k ∈ tl.onceRanEntries then (tl, false, ⟨false, none, detail⟩)
  else
    let tl2 := { tl with onceRanEntries := k :: tl.onceRanEntries }
    (tl2, true, tl2.Error event detail)

/-- `HasWarnedOnce`: presence query under the same mutex. -/
def Logger.HasWarnedOnce (tl : Logger) (key : String) : Bool :=
  decide (("warn." ++ key) ∈ tl.onceRanEntries)

/-- `Level`. -/
def Logger.Level (tl : Logger) : String := tl.level

/-- `Close`: returns the resource whose `Close()` gets invoked
(`none` means the call is a no-op). -/
def Logger.Close (tl : Logger) : Option Sink := tl.closer

/-- The public operations, for reasoning about arbitrary call
sequences on one Logger instance. -/
inductive Op where
  | setLogLevel (s : String)
  | info (e : String) (d : Detail)
  | warn (e : String) (d : Detail)
  | error (e : String) (d : Detail)
  | debug (e : String) (d : Detail)
  | trace (e : String) (d : Detail)
  | fatal (code : Int) (e : String) (d : Detail)
  | infoOnce (k e : String) (d : Detail)
  | warnOnce (k e : String) (d : Detail)
  | errorOnce (k e : String) (d : Detail)
  | hasWarnedOnce (k : String)
  | close
deriving DecidableEq, Repr

/-- Effect of one public operation on the Logger state (emission
operations mutate only the caller's detail map, never the Logger). -/
def runOp (tl : Logger) : Op → Logger
  | .setLogLevel s => tl.SetLogLevel s
  | .infoOnce k e d => (tl.InfoOnce k e d).1
  | .warnOnce k e d => (tl.WarnOnce k e d).1
  | .errorOnce k e d => (tl.ErrorOnce k e d).1
  | _ => tl

/-- Run a call sequence left to right. -/
def runOps (tl : Logger) (ops : List Op) : Logger := ops.foldl runOp tl

/-- Argument of the last `SetLogLevel` in the sequence, or the
constructor-supplied level when there is none. -/
def lastSetLevel (lv0 : String) (ops : List Op) : String :=
  ops.foldl (fun acc op => match op with | .setLogLevel s => s | _ => acc) lv0

/-- The three severity families of the once tracker. -/
inductive OnceFam where
  | info | warn | error
deriving DecidableEq, Repr

/-- The dedup-key namespace each family prepends. -/
def OnceFam.ns : OnceFam → String
  | .info => "info."
  | .warn => "warn."
  | .error => "error."

/-- Dispatch to the family's Once operation. -/
def runOnce (fam : OnceFam) (tl : Logger) (key event : String) (d : Detail) :
    Logger × Bool × EmitResult :=
  match fam with
  | .info => tl.InfoOnce key event d
  | .warn => tl.WarnOnce key event d
  | .error => tl.ErrorOnce key event d

/-- The family's normal leveled emission (`Info`/`Warn`/`Error`). -/
def leveledEmit (fam : OnceFam) (tl : Logger) (event : String) (d : Detail) :
    EmitResult :=
  match fam with
  | .info => tl.Info event d
  | .warn => tl.Warn event d
  | .error => tl.Error event d

/-- Whether an operation is a `WarnOnce` call with the given key. -/
def opIsWarnOnce (key : String) : Op → Bool
  | .warnOnce k _ _ => k == key
  | _ => false

end TrLog

namespace TrLog

/-! ### Helper lemmas -/

theorem toNat_ofNat_valid (n : Nat) (h : n.isValidChar) :
    (Char.ofNat n).toNat = n := by
  simp [Char.ofNat, h, Char.ofNatAux, Char.toNat, UInt32.toNat]

theorem charToLower_stable (c : Char) :
    (Char.toLower c).toLower = Char.toLower c := by
  by_cases h : c.toNat ≥ 65 ∧ c.toNat ≤ 90
  · simp only [Char.toLower]
    rw [if_pos h]
    have hv : (c.toNat + 32).isValidChar := Or.inl (by omega)
    rw [if_neg (by rw [toNat_ofNat_valid _ hv]; omega)]
  · simp only [Char.toLower]
    rw [if_neg h, if_neg h]

theorem toLowerStr_idem (s : String) :
    toLowerStr (toLowerStr s) = toLowerStr s := by
  unfold toLowerStr
  congr 1
  rw [show String.data ⟨List.map Char.toLower s.data⟩ =
      List.map Char.toLower s.data from rfl]
  rw [List.map_map]
  exact List.map_congr_left fun c _ => charToLower_stable c

theorem warn_append_inj {a b : String} (h : "warn." ++ a = "warn." ++ b) :
    a = b := by
  have h2 := congrArg String.data h
  rw [String.data_append, String.data_append] at h2
  exact String.ext (List.append_cancel_left h2)

theorem warn_ne_info (a b : String) : "warn." ++ a ≠ "info." ++ b := by
  intro h
  have h2 := congrArg String.data h
  rw [String.data_append, String.data_append] at h2
  simp [show ("warn." : String).data = ['w', 'a', 'r', 'n', '.'] from rfl,
    show ("info." : String).data = ['i', 'n', 'f', 'o', '.'] from rfl] at h2

theorem warn_ne_error (a b : String) : "warn." ++ a ≠ "error." ++ b := by
  intro h
  have h2 := congrArg String.data h
  rw [String.data_append, String.data_append] at h2
  simp [show ("warn." : String).data = ['w', 'a', 'r', 'n', '.'] from rfl,
    show ("error." : String).data = ['e', 'r', 'r', 'o', 'r', '.'] from rfl] at h2

theorem mapKeys_cons (k : String) (v : LVal) (rest : PairsMap) :
    mapKeys ((k, v) :: rest) = k :: mapKeys rest := rfl

theorem mapFlat_length (d : PairsMap) : (mapFlat d).length = 2 * d.length := by
  induction d with
  | nil => rfl
  | cons kv rest ih =>
    obtain ⟨k, v⟩ := kv
    simp [mapFlat, ih]
    ring

theorem mapLookup_mem_keys {d : PairsMap} {key : String} {v : LVal}
    (h : mapLookup d key = some v) : key ∈ mapKeys d := by
  induction d with
  | nil => simp [mapLookup] at h
  | cons kv rest ih =>
    obtain ⟨k, w⟩ := kv
    by_cases hk : k = key
    · simp [mapKeys, hk]
    · simp only [mapLookup, if_neg hk] at h
      simp [mapKeys] at ih ⊢
      right
      exact ih h

theorem mapErase_length {d : PairsMap} {key : String}
    (h : key ∈ mapKeys d) : d.length = (mapErase d key).length + 1 := by
  induction d with
  | nil => simp [mapKeys] at h
  | cons kv rest ih =>
    obtain ⟨k, w⟩ := kv
    by_cases hk : k = key
    · simp [mapErase, hk]
    · rw [mapKeys_cons] at h
      rcases List.mem_cons.mp h with h1 | h2
      · exact absurd h1.symm hk
      · simp [mapErase, hk, ih h2]

theorem mapKeys_mapErase (d : PairsMap) (key : String) :
    mapKeys (mapErase d key) = (mapKeys d).erase key := by
  induction d with
  | nil => rfl
  | cons kv rest ih =>
    obtain ⟨k, w⟩ := kv
    by_cases hk : k = key
    · simp [mapErase, hk, mapKeys, List.erase_cons_head]
    · simp [mapErase, hk, mapKeys, List.erase_cons_tail,
        show (k == key) = false by simp [hk]]
      exact ih

theorem mapLookup_mapInsert (d : PairsMap) (key : String) (v : LVal) :
    mapLookup (mapInsert d key v) key = some v := by
  induction d with
  | nil => simp [mapInsert, mapLookup]
  | cons kv rest ih =>
    obtain ⟨k, w⟩ := kv
    by_cases hk : k = key
    · simp [mapInsert, hk, mapLookup]
    · simp [mapInsert, hk, mapLookup, ih]

theorem runOps_cons (tl : Logger) (op : Op) (rest : List Op) :
    runOps tl (op :: rest) = runOps (runOp tl op) rest := rfl

theorem lastSetLevel_cons (lv0 : String) (op : Op) (rest : List Op) :
    lastSetLevel lv0 (op :: rest) =
      lastSetLevel (match op with | .setLogLevel s => s | _ => lv0) rest := rfl

theorem onceRan_mono_runOp (tl : Logger) (op : Op) {k : String}
    (h : k ∈ tl.onceRanEntries) : k ∈ (runOp tl op).onceRanEntries := by
  cases op with
  | setLogLevel s => exact h
  | infoOnce k2 e d =>
    simp only [runOp, Logger.InfoOnce]
    split
    · exact h
    · exact List.mem_cons_of_mem _ h
  | warnOnce k2 e d =>
    simp only [runOp, Logger.WarnOnce]
    split
    · exact h
    · exact List.mem_cons_of_mem _ h
  | errorOnce k2 e d =>
    simp only [runOp, Logger.ErrorOnce]
    split
    · exact h
    · exact List.mem_cons_of_mem _ h
  | _ => exact h

theorem onceRan_mono_runOps (tl : Logger) (ops : List Op) {k : String}
    (h : k ∈ tl.onceRanEntries) : k ∈ (runOps tl ops).onceRanEntries := by
  induction ops generalizing tl with
  | nil => exact h
  | cons op rest ih => exact ih _ (onceRan_mono_runOp tl op h)

theorem runOp_keeps_level (tl : Logger) (op : Op) :
    (runOp tl op).level =
      (match op with | .setLogLevel s => toLowerStr s | _ => tl.level) ∧
    (runOp tl op).filter =
      (match op with
       | .setLogLevel s => levelFilter (toLowerStr s)
       | _ => tl.filter) := by
  cases op with
  | setLogLevel s => exact ⟨rfl, rfl⟩
  | infoOnce k2 e d =>
    constructor <;> (simp only [runOp, Logger.InfoOnce]; split <;> rfl)
  | warnOnce k2 e d =>
    constructor <;> (simp only [runOp, Logger.WarnOnce]; split <;> rfl)
  | errorOnce k2 e d =>
    constructor <;> (simp only [runOp, Logger.ErrorOnce]; split <;> rfl)
  | _ => exact ⟨rfl, rfl⟩

theorem runOps_level_filter (ops : List Op) (tl : Logger) (x : String)
    (hl : tl.level = toLowerStr x)
    (hf : tl.filter = levelFilter (toLowerStr x)) :
    (runOps tl ops).level = toLowerStr (lastSetLevel x ops) ∧
    (runOps tl ops).filter = levelFilter (toLowerStr (lastSetLevel x ops)) := by
  induction ops generalizing tl x with
  | nil => exact ⟨hl, hf⟩
  | cons op rest ih =>
    rw [runOps_cons, lastSetLevel_cons]
    obtain ⟨h1, h2⟩ := runOp_keeps_level tl op
    cases op with
    | setLogLevel s => exact ih _ s h1 h2
    | _ => exact ih _ x (h1.trans hl) (h2.trans hf)

theorem warnKey_mem_runOps (tl : Logger) (ops : List Op) (key : String) :
    ("warn." ++ key) ∈ (runOps tl ops).onceRanEntries ↔
      ("warn." ++ key) ∈ tl.onceRanEntries ∨
        ops.any (opIsWarnOnce key) = true := by
  induction ops generalizing tl with
  | nil => simp [runOps]
  | cons op rest ih =>
    rw [runOps_cons, ih, List.any_cons]
    cases op with
    | warnOnce k2 e2 d2 =>
      by_cases hk : k2 = key
      · subst hk
        simp only [runOp, Logger.WarnOnce, opIsWarnOnce, beq_self_eq_true,
          Bool.true_or]
        split
        · rename_i hmem
          simp only [or_true, iff_true]
          exact Or.inl hmem
        · simp only [List.mem_cons, true_or, or_true]
      · have hne : ("warn." ++ key) ≠ ("warn." ++ k2) := fun hcontra =>
          hk (warn_append_inj hcontra).symm
        simp only [runOp, Logger.WarnOnce, opIsWarnOnce,
          show (k2 == key) = false by simp [hk], Bool.false_or]
        split
        · rfl
        · simp only [List.mem_cons, hne, false_or]
    | infoOnce k2 e2 d2 =>
      have hne : ("warn." ++ key) ≠ ("info." ++ k2) := warn_ne_info key k2
      simp only [runOp, Logger.InfoOnce, opIsWarnOnce, Bool.false_or]
      split
      · rfl
      · simp only [List.mem_cons, hne, false_or]
    | errorOnce k2 e2 d2 =>
      have hne : ("warn." ++ key) ≠ ("error." ++ k2) := warn_ne_error key k2
      simp only [runOp, Logger.ErrorOnce, opIsWarnOnce, Bool.false_or]
      split
      · rfl
      · simp only [List.mem_cons, hne, false_or]
    | setLogLevel s => simp [runOp, opIsWarnOnce, Logger.SetLogLevel]
    | info e d => simp [runOp, opIsWarnOnce]
    | warn e d => simp [runOp, opIsWarnOnce]
    | error e d => simp [runOp, opIsWarnOnce]
    | debug e d => simp [runOp, opIsWarnOnce]
    | trace e d => simp [runOp, opIsWarnOnce]
    | fatal c e d => simp [runOp, opIsWarnOnce]
    | hasWarnedOnce k => simp [runOp, opIsWarnOnce]
    | close => simp [runOp, opIsWarnOnce]

end TrLog

namespace TrLog

theorem runOnce_not_mem (fam : OnceFam) (tl : Logger) (key event : String)
    (d : Detail) (h : (fam.ns ++ key) ∉ tl.onceRanEntries) :
    runOnce fam tl key event d =
      ({ tl with onceRanEntries := (fam.ns ++ key) :: tl.onceRanEntries },
       true, leveledEmit fam tl event d) := by
  cases fam with
  | info =>
    simp only [OnceFam.ns] at h ⊢
    simp only [runOnce, Logger.InfoOnce, if_neg h]
    rfl
  | warn =>
    simp only [OnceFam.ns] at h ⊢
    simp only [runOnce, Logger.WarnOnce, if_neg h]
    rfl
  | error =>
    simp only [OnceFam.ns] at h ⊢
    simp only [runOnce, Logger.ErrorOnce, if_neg h]
    rfl

theorem runOnce_mem (fam : OnceFam) (tl : Logger) (key event : String)
    (d : Detail) (h : (fam.ns ++ key) ∈ tl.onceRanEntries) :
    runOnce fam tl key event d = (tl, false, ⟨false, none, d⟩) := by
  cases fam with
  | info =>
    simp only [OnceFam.ns] at h
    simp only [runOnce, Logger.InfoOnce, if_pos h]
  | warn =>
    simp only [OnceFam.ns] at h
    simp only [runOnce, Logger.WarnOnce, if_pos h]
  | error =>
    simp only [OnceFam.ns] at h
    simp only [runOnce, Logger.ErrorOnce, if_pos h]

/-- C1: for a fixed Logger and fixed key, the first call of a given
Once-family operation (InfoOnce, WarnOnce or ErrorOnce) with that key
returns `true` and performs exactly one normal leveled emission; every
subsequent call of the same operation with the same key returns `false`
and performs no emission, for any number and order of intervening
operations — the namespaced key, once inserted, is never removed. -/
theorem c1_once_family_dedup (tl : Logger) (fam : OnceFam)
    (key event : String) (d : Detail)
    (h : (fam.ns ++ key) ∉ tl.onceRanEntries) :
    (runOnce fam tl key event d).2.1 = true ∧
    (runOnce fam tl key event d).2.2 = leveledEmit fam tl event d ∧
    ∀ ops event2 d2,
      (fam.ns ++ key) ∈
        (runOps (runOnce fam tl key event d).1 ops).onceRanEntries ∧
      runOnce fam (runOps (runOnce fam tl key event d).1 ops) key event2 d2 =
        (runOps (runOnce fam tl key event d).1 ops, false,
         ⟨false, none, d2⟩) := by
  rw [runOnce_not_mem fam tl key event d h]
  refine ⟨rfl, rfl, fun ops event2 d2 => ?_⟩
  have hmem2 := onceRan_mono_runOps
    ({ tl with onceRanEntries := (fam.ns ++ key) :: tl.onceRanEntries }) ops
    (List.mem_cons_self (fam.ns ++ key) tl.onceRanEntries)
  exact ⟨hmem2, runOnce_mem fam _ key event2 d2 hmem2⟩

theorem c1_once_family_dedup_witness :
    ("info." ++ "k") ∉ (ConsoleLogger "info").onceRanEntries ∧
    (runOnce .info (ConsoleLogger "info") "k" "e" none).2.1 = true :=
  ⟨by decide,
   (c1_once_family_dedup (ConsoleLogger "info") .info "k" "e" none
      (by decide)).1⟩

/-- C10: the per-severity dedup namespaces are independent: starting
from a freshly constructed Logger, `HasWarnedOnce key` is `true`
exactly when the call sequence contains a `WarnOnce` with that key;
`InfoOnce`/`ErrorOnce` calls with the same key neither make it `true`
nor cause a first `WarnOnce` with that key to return `false`. -/
theorem c10_warn_namespace_independent (tl0 : Logger)
    (h0 : tl0.onceRanEntries = []) (key : String) (ops : List Op) :
    ((runOps tl0 ops).HasWarnedOnce key = true ↔
      ops.any (opIsWarnOnce key) = true) ∧
    (ops.any (opIsWarnOnce key) = false →
      ∀ event d, ((runOps tl0 ops).WarnOnce key event d).2.1 = true) := by
  have hchar := warnKey_mem_runOps tl0 ops key
  rw [h0] at hchar
  simp only [List.not_mem_nil, false_or] at hchar
  constructor
  · simpa only [Logger.HasWarnedOnce, decide_eq_true_eq] using hchar
  · intro hno event d
    have hnot : ("warn." ++ key) ∉ (runOps tl0 ops).onceRanEntries := by
      rw [hchar, hno]
      simp
    simp only [Logger.WarnOnce, if_neg hnot]

theorem c10_warn_namespace_independent_witness :
    (ConsoleLogger "info").onceRanEntries = [] ∧
    (((runOps (ConsoleLogger "info")
        [Op.infoOnce "k" "e" none, Op.errorOnce "k" "e" none]).HasWarnedOnce
          "k" = true) ↔
      ([Op.infoOnce "k" "e" none, Op.errorOnce "k" "e" none].any
        (opIsWarnOnce "k") = true)) :=
  ⟨rfl,
   (c10_warn_namespace_independent (ConsoleLogger "info") rfl "k"
      [Op.infoOnce "k" "e" none, Op.errorOnce "k" "e" none]).1⟩

end TrLog

namespace TrLog

/-- C2: `mapToArray` produces exactly `2*|detail|+2` entries
(`|detail|` counted at entry); a `"level"` key is emitted as the first
pair, removed from the detail map and absent from the remaining keys;
the `("event", event)` pair comes next; every remaining key contributes
exactly one key/value pair; encoding event `"e"` with detail
`{"level": "debug", "x": 1}` yields
`("level","debug"), ("event","e"), ("x",1)` of total length 6. -/
theorem c2_mapToArray_shape (event : String) (d : PairsMap) (h : mapWF d) :
    (mapToArray event (some d)).1.length = 2 * d.length + 2 ∧
    (∀ v, mapLookup d "level" = some v →
      mapToArray event (some d) =
        (LVal.str "level" :: v :: LVal.str "event" :: LVal.str event ::
           mapFlat (mapErase d "level"), some (mapErase d "level")) ∧
      "level" ∉ mapKeys (mapErase d "level") ∧
      mapKeys (mapErase d "level") = (mapKeys d).erase "level" ∧
      mapWF (mapErase d "level")) ∧
    (mapLookup d "level" = none →
      mapToArray event (some d) =
        (LVal.str "event" :: LVal.str event :: mapFlat d, some d)) ∧
    mapToArray "e" (some [("level", .str "debug"), ("x", .int 1)]) =
      ([.str "level", .str "debug", .str "event", .str "e",
        .str "x", .int 1], some [("x", .int 1)]) := by
  refine ⟨?_, ?_, ?_, by decide⟩
  · cases hl : mapLookup d "level" with
    | none => simp [mapToArray, hl, mapFlat_length]
    | some v =>
      have hlen := mapErase_length (mapLookup_mem_keys hl)
      simp [mapToArray, hl, mapFlat_length]
      omega
  · intro v hv
    refine ⟨by simp [mapToArray, hv], ?_, mapKeys_mapErase d "level", ?_⟩
    · rw [mapKeys_mapErase]
      exact List.Nodup.not_mem_erase h
    · unfold mapWF
      rw [mapKeys_mapErase]
      exact List.Nodup.erase _ h
  · intro hn
    simp [mapToArray, hn]

theorem c2_mapToArray_shape_witness :
    mapWF [("level", LVal.str "debug"), ("x", LVal.int 1)] ∧
    (mapToArray "e"
      (some [("level", LVal.str "debug"), ("x", LVal.int 1)])).1.length =
      2 * ([("level", LVal.str "debug"), ("x", LVal.int 1)] : PairsMap).length
        + 2 :=
  ⟨by decide,
   (c2_mapToArray_shape "e" [("level", LVal.str "debug"), ("x", LVal.int 1)]
      (by decide)).1⟩

/-- C3: `Fatal` never panics on a proper detail map, tags the record
with a leading `("level","fatal")` pair, emits it whatever the
configured filter is (the record carries no go-kit level value, so even
`AllowNone` passes it), and terminates the process if and only if the
exit code is nonnegative; `-1` produces no termination. -/
theorem c3_fatal_always_emits_and_exit_gate (tl : Logger) (code : Int)
    (event : String) (d : PairsMap) :
    (tl.Fatal code event (some d)).1.panicked = false ∧
    (tl.Fatal code event (some d)).1.emitted =
      some ⟨none,
        (mapToArray event (some (mapInsert d "level" (.str "fatal")))).1⟩ ∧
    (mapToArray event (some (mapInsert d "level" (.str "fatal")))).1.take 2 =
      [LVal.str "level", LVal.str "fatal"] ∧
    ((tl.Fatal code event (some d)).2 = true ↔ 0 ≤ code) ∧
    (tl.Fatal (-1) event (some d)).2 = false := by
  refine ⟨rfl, rfl, ?_, ?_, rfl⟩
  · have hv := mapLookup_mapInsert d "level" (.str "fatal")
    simp [mapToArray, hv]
  · simp [Logger.Fatal, decide_eq_true_eq]

/-- C4: `Trace` emits a record if and only if the stored level string
equals exactly `"trace"`; when it emits, it injects `"level"="trace"`
into the detail and writes through the active writer with no standard
severity tagging (no go-kit level value); for any other stored level
the call is a silent no-op that writes nothing. -/
theorem c4_trace_gated_by_level_string (tl : Logger) (event : String)
    (d : PairsMap) :
    ((tl.Trace event (some d)).emitted ≠ none ↔ tl.level = "trace") ∧
    (tl.level = "trace" →
      tl.Trace event (some d) =
        ⟨false,
         some ⟨none,
           (mapToArray event (some (mapInsert d "level" (.str "trace")))).1⟩,
         (mapToArray event (some (mapInsert d "level" (.str "trace")))).2⟩ ∧
      (mapToArray event
          (some (mapInsert d "level" (.str "trace")))).1.take 2 =
        [LVal.str "level", LVal.str "trace"]) ∧
    (tl.level ≠ "trace" → tl.Trace event (some d) = ⟨false, none, some d⟩) := by
  by_cases h : tl.level = "trace"
  · refine ⟨?_, fun _ => ⟨?_, ?_⟩, fun hc => absurd h hc⟩
    · simp [Logger.Trace, h, filterLog]
    · simp [Logger.Trace, h, filterLog]
    · have hv := mapLookup_mapInsert d "level" (.str "trace")
      simp [mapToArray, hv]
  · refine ⟨?_, fun hc => absurd hc h, fun _ => ?_⟩
    · simp [Logger.Trace, h]
    · simp [Logger.Trace, h]

theorem c4_trace_gated_by_level_string_witness :
    (ConsoleLogger "trace").level = "trace" ∧
    (ConsoleLogger "trace").Trace "e" (some []) =
      ⟨false,
       some ⟨none,
         (mapToArray "e" (some (mapInsert [] "level" (.str "trace")))).1⟩,
       (mapToArray "e" (some (mapInsert [] "level" (.str "trace")))).2⟩ :=
  ⟨by decide,
   ((c4_trace_gated_by_level_string (ConsoleLogger "trace") "e" []).2.1
      (by decide)).1⟩

end TrLog

namespace TrLog

theorem New_level_filter (conf : Config) :
    (New conf).level = toLowerStr conf.logging.logLevel ∧
    (New conf).filter = levelFilter (toLowerStr conf.logging.logLevel) := by
  by_cases hp : conf.logging.logFile = ""
  · constructor <;>
      simp [New, hp, Sink.isCloser, Logger.SetLogLevel, noopLogger]
  · by_cases hn : conf.main.instanceID > 0
    · constructor <;>
        simp [New, hp, hn, Sink.isCloser, Logger.SetLogLevel, noopLogger]
    · constructor <;>
        simp [New, hp, hn, Sink.isCloser, Logger.SetLogLevel, noopLogger]

theorem New_baseSink (conf : Config) :
    (New conf).baseSink =
      if conf.logging.logFile = "" then Sink.stdout
      else
        Sink.rotatingFile
          (if conf.main.instanceID > 0 then
            replaceFirst conf.logging.logFile ".log"
              ("." ++ itoa conf.main.instanceID ++ ".log")
          else conf.logging.logFile) 256 80 7 true := by
  by_cases hp : conf.logging.logFile = ""
  · simp [New, hp, Sink.isCloser, Logger.SetLogLevel, noopLogger]
  · by_cases hn : conf.main.instanceID > 0
    · simp [New, hp, hn, Sink.isCloser, Logger.SetLogLevel, noopLogger]
    · simp [New, hp, hn, Sink.isCloser, Logger.SetLogLevel, noopLogger]

/-- C5: for every input whose lowercasing is none of the six known
level strings (including the empty string), `SetLogLevel` silently
installs the same active filter as `"info"`; and `"trace"` installs the
same filter as `"debug"`. -/
theorem c5_setLogLevel_unknown_folds_to_info (tl : Logger) (s : String)
    (h : toLowerStr s ∉ ["debug", "info", "warn", "error", "trace", "none"]) :
    (tl.SetLogLevel s).filter = (tl.SetLogLevel "info").filter ∧
    (tl.SetLogLevel "trace").filter = (tl.SetLogLevel "debug").filter := by
  constructor
  · simp only [List.mem_cons, List.mem_singleton, not_or] at h
    obtain ⟨h1, h2, h3, h4, h5, h6, -⟩ := h
    show levelFilter (toLowerStr s) = (tl.SetLogLevel "info").filter
    rw [show (tl.SetLogLevel "info").filter = Allow.allowInfo from rfl]
    simp only [levelFilter, if_neg h1, if_neg h2, if_neg h3, if_neg h4,
      if_neg h5, if_neg h6]
  · rfl

theorem c5_setLogLevel_unknown_folds_to_info_witness :
    toLowerStr "" ∉ ["debug", "info", "warn", "error", "trace", "none"] ∧
    (DefaultLogger.SetLogLevel "").filter =
      (DefaultLogger.SetLogLevel "info").filter :=
  ⟨by decide,
   (c5_setLogLevel_unknown_folds_to_info DefaultLogger "" (by decide)).1⟩

/-- C6 (evaluation at the failing input): contrary to the claim, `New`
with an empty log-file path retains `os.Stdout` as its closer — the
`wr.(io.Closer)` type assertion succeeds on `*os.File` — so `Close()`
is not a no-op and closes standard output, unlike `ConsoleLogger`,
which retains no closer and whose `Close()` is a no-op. -/
theorem c6_new_empty_path_closes_stdout :
    (New ⟨⟨"", "info"⟩, ⟨0⟩⟩).closer = some Sink.stdout ∧
    (New ⟨⟨"", "info"⟩, ⟨0⟩⟩).Close = some Sink.stdout ∧
    (ConsoleLogger "info").closer = none ∧
    (ConsoleLogger "info").Close = none := by decide

/-- C7 counterexample: not every emission operation accepts a nil
detail map — `Fatal` always assigns `detail["level"] = "fatal"`, and
`Trace` at stored level `"trace"` assigns `detail["level"] = "trace"`,
which on a nil Go map panics. -/
theorem c7_nil_detail_counterexample :
    ((ConsoleLogger "info").Fatal 0 "e" none).1.panicked = true ∧
    ((ConsoleLogger "trace").Trace "e" none).panicked = true := by decide

/-- C7 (amended): `Info`, `Warn`, `Error` and `Debug` accept a nil
detail map by treating it as empty, encoding only the level/event
pairs, as does `Trace` when the stored level is not `"trace"`; but
`Trace` at stored level `"trace"` and `Fatal` assign into the nil map
and panic. -/
theorem c7_nil_detail_amended (tl : Logger) (event : String) (code : Int) :
    tl.Info event none =
      ⟨false, filterLog tl.filter ⟨some .info, [.str "event", .str event]⟩,
       none⟩ ∧
    tl.Warn event none =
      ⟨false, filterLog tl.filter ⟨some .warn, [.str "event", .str event]⟩,
       none⟩ ∧
    tl.Error event none =
      ⟨false, filterLog tl.filter ⟨some .error, [.str "event", .str event]⟩,
       none⟩ ∧
    tl.Debug event none =
      ⟨false, filterLog tl.filter ⟨some .debug, [.str "event", .str event]⟩,
       none⟩ ∧
    (tl.level ≠ "trace" → tl.Trace event none = ⟨false, none, none⟩) ∧
    (tl.level = "trace" → (tl.Trace event none).panicked = true) ∧
    (tl.Fatal code event none).1.panicked = true := by
  refine ⟨rfl, rfl, rfl, rfl, fun h => ?_, fun h => ?_, rfl⟩
  · simp [Logger.Trace, h]
  · simp [Logger.Trace, h]

theorem c7_nil_detail_amended_witness :
    (ConsoleLogger "info").level ≠ "trace" ∧
    (ConsoleLogger "info").Trace "e" none = ⟨false, none, none⟩ :=
  ⟨by decide,
   (c7_nil_detail_amended (ConsoleLogger "info") "e" 0).2.2.2.2.1 (by decide)⟩

/-- C8 counterexample: `SetLogLevel` stores the lowercased input
before the switch, so an unknown level string is kept verbatim:
`Level()` then returns a string outside the fixed enumeration and not
equal to `"info"`. -/
theorem c8_level_enum_counterexample :
    (ConsoleLogger "Bogus").Level = "bogus" ∧
    "bogus" ∉ ["none", "error", "warn", "info", "debug", "trace"] ∧
    (ConsoleLogger "Bogus").Level ≠ "info" := by decide

/-- C8 (amended): after any sequence of constructor and public calls,
the stored level string equals the lowercasing of the most recently set
level string — hence it is always lowercase — and the active filter
always equals `levelFilter` of that lowercased string (so unknown
strings fold the filter, not the stored string, to the info filter). -/
theorem c8_level_string_amended (lv0 : String) (conf : Config)
    (ops : List Op) :
    ((runOps (ConsoleLogger lv0) ops).Level =
        toLowerStr (lastSetLevel lv0 ops) ∧
      toLowerStr ((runOps (ConsoleLogger lv0) ops).Level) =
        (runOps (ConsoleLogger lv0) ops).Level ∧
      (runOps (ConsoleLogger lv0) ops).filter =
        levelFilter (toLowerStr (lastSetLevel lv0 ops))) ∧
    ((runOps (New conf) ops).Level =
        toLowerStr (lastSetLevel conf.logging.logLevel ops) ∧
      toLowerStr ((runOps (New conf) ops).Level) =
        (runOps (New conf) ops).Level ∧
      (runOps (New conf) ops).filter =
        levelFilter (toLowerStr (lastSetLevel conf.logging.logLevel ops))) := by
  have hc := runOps_level_filter ops (ConsoleLogger lv0) lv0 rfl rfl
  have hn0 := New_level_filter conf
  have hn := runOps_level_filter ops (New conf) conf.logging.logLevel
    hn0.1 hn0.2
  refine ⟨⟨hc.1, ?_, hc.2⟩, ⟨hn.1, ?_, hn.2⟩⟩
  · rw [show (runOps (ConsoleLogger lv0) ops).Level =
        toLowerStr (lastSetLevel lv0 ops) from hc.1]
    exact toLowerStr_idem _
  · rw [show (runOps (New conf) ops).Level =
        toLowerStr (lastSetLevel conf.logging.logLevel ops) from hn.1]
    exact toLowerStr_idem _

/-- C9: with a non-empty log-file path and a positive instance
identifier `n`, the rotating writer's filename is the path with its
first `".log"` substring replaced by `".<n>.log"` (instance 3 with
`"app.log"` resolves to `"app.3.log"`), with the fixed policy of
256 MB, 80 backups, 7 days, compression; instance identifier 0 leaves
the path unchanged. -/
theorem c9_rotating_filename (path lvl : String) (n : Int)
    (hpath : path ≠ "") :
    (0 < n →
      (New ⟨⟨path, lvl⟩, ⟨n⟩⟩).baseSink =
        Sink.rotatingFile
          (replaceFirst path ".log" ("." ++ itoa n ++ ".log"))
          256 80 7 true) ∧
    (New ⟨⟨path, lvl⟩, ⟨0⟩⟩).baseSink =
      Sink.rotatingFile path 256 80 7 true ∧
    (New ⟨⟨"app.log", lvl⟩, ⟨3⟩⟩).baseSink =
      Sink.rotatingFile "app.3.log" 256 80 7 true := by
  refine ⟨fun hn => ?_, ?_, ?_⟩
  · rw [New_baseSink]
    simp [hpath, hn]
  · rw [New_baseSink]
    simp [hpath]
  · rw [New_baseSink]
    dsimp only
    decide

theorem c9_rotating_filename_witness :
    ("app.log" : String) ≠ "" ∧
    (New ⟨⟨"app.log", "info"⟩, ⟨3⟩⟩).baseSink =
      Sink.rotatingFile "app.3.log" 256 80 7 true :=
  ⟨by decide, (c9_rotating_filename "app.log" "info" 3 (by decide)).2.2⟩

end TrLog
